import Mathlib

set_option maxHeartbeats 1000000

/-!
Verification development for the PeripheralShare core: a shallow embedding of
the handoff state machine (`src/core/app_manager.py`), the seamless-desktop
edge/layout logic (`src/core/desktop_manager.py`), the newline-framed message
codec and receive loops (`src/network/client.py`, `src/network/server.py`),
and the best-effort broadcast / disconnect logic of the server.
-/

/-- Model of a Python dict lookup `d.get(k)`: first (unique) matching key of an
association list, `none` when absent. -/
def dictGet {α : Type} : List (String × α) → String → Option α
  | [], _ => none
  | (k, v) :: rest, key => if k = key then some v else dictGet rest key

/-- Model of a Python dict assignment `d[k] = v`: overwrite in place when the
key is present (keeping its position in insertion order), append otherwise. -/
def dictSet {α : Type} : List (String × α) → String → α → List (String × α)
  | [], key, v => [(key, v)]
  | (k, w) :: rest, key, v =>
    if k = key then (key, v) :: rest else (k, w) :: dictSet rest key v

/-- Model of Python `int()` applied to an exact rational value: truncation
toward zero (`num tdiv den`, with `den > 0`). -/
def pyInt (q : ℚ) : Int := q.num.tdiv q.den

/-- Python `max(a, b)`: the first argument on ties. -/
def pymax (a b : Int) : Int := if b ≤ a then a else b

/-- Python `min(a, b)`: the first argument on ties. -/
def pymin (a b : Int) : Int := if a ≤ b then a else b

namespace DesktopManager

/-- One record of `DeviceLayout.devices`: position slot, screen geometry, ip
and the active/connected mark (`DeviceLayout.add_device` stores these five
fields). -/
structure DeviceRec where
  position : String
  width : Int
  height : Int
  ip : String
  active : Bool
deriving Repr, DecidableEq

/-- `DeviceLayout.add_device`: store the device record (with `active = False`)
under its id and point the position slot of `layout` at the id. -/
def add_device (devices : List (String × DeviceRec)) (layout : List (String × String))
    (device_id position : String) (w h : Int) (ip : String) :
    List (String × DeviceRec) × List (String × String) :=
  (dictSet devices device_id ⟨position, w, h, ip, false⟩, dictSet layout position device_id)

/-- The fixed adjacency table of `DeviceLayout.get_adjacent_device`:
`adjacency[current_pos][direction]`, as written in the source. -/
def adjacency (pos direction : String) : Option String :=
  if pos = "left" then
    if direction = "middle" then some ("left")
    else if direction = "right" then some ("middle")
    else none
  else if pos = "right" then
    if direction = "left" then some ("middle")
    else if direction = "middle" then some ("right")
    else none
  else if pos = "middle" then
    if direction = "left" then some ("left")
    else if direction = "right" then some ("right")
    else none
  else none

/-- `DeviceLayout.get_adjacent_device`: `none` for an unknown current device;
otherwise apply the adjacency table to the current position and direction and
return `layout.get(target_pos)`.  (The source performs no check of the
`active` mark here.) -/
def get_adjacent_device (devices : List (String × DeviceRec))
    (layout : List (String × String)) (current_device direction : String) :
    Option String :=
  match dictGet devices current_device with
  | none => none
  | some info =>
    match adjacency info.position direction with
    | none => none
    | some target_pos => dictGet layout target_pos

/-- The in-place update `devices[device_id]["active"] = b` used by
`SeamlessDesktopManager.add_connected_device`. -/
def set_active_flag : List (String × DeviceRec) → String → Bool → List (String × DeviceRec)
  | [], _, _ => []
  | kv :: rest, device_id, b =>
    (if kv.1 = device_id then (kv.1, { kv.2 with active := b }) else kv) ::
      set_active_flag rest device_id b

/-- `EdgeDetector.check_edge`: `left` within threshold of the left border,
`right` within threshold of the right border, else `none` (y is unused by the
source). -/
def check_edge (screen_width edge_threshold : Int) (x y : Int) : Option String :=
  if x ≤ edge_threshold then some ("left")
  else if x ≥ screen_width - edge_threshold then some ("right")
  else none

/-- Mutable state of one `SeamlessDesktopManager` instance. -/
structure DMState where
  devices : List (String × DeviceRec)
  layout : List (String × String)
  screen_width : Int
  screen_height : Int
  current_device : String
  transition_in_progress : Bool
deriving Repr, DecidableEq

/-- One `cursor_transition_requested` signal emission
(target device, direction, target x, target y). -/
structure Emit where
  target_device : String
  direction : String
  x : Int
  y : Int
deriving Repr, DecidableEq

/-- `SeamlessDesktopManager._calculate_target_position`: entry x is 10 px
inside the mirrored edge, y is the proportional mapping
`int((source_y / screen_height) * target_height)`; both clamped into
`[0, width-1] x [0, height-1]`.  Python float arithmetic is modelled by exact
rationals, `int()` by truncation toward zero and `//` by floor division. -/
def _calculate_target_position (screen_height : Int) (direction : String)
    (source_x source_y : Int) (target : DeviceRec) : Int × Int :=
  let target_width := target.width
  let target_height := target.height
  let p : Int × Int :=
    if direction = "left" then
      (target_width - 10, pyInt (((source_y : ℚ) / (screen_height : ℚ)) * (target_height : ℚ)))
    else if direction = "right" then
      (10, pyInt (((source_y : ℚ) / (screen_height : ℚ)) * (target_height : ℚ)))
    else
      (Int.fdiv target_width 2, Int.fdiv target_height 2)
  (pymax 0 (pymin p.1 (target_width - 1)), pymax 0 (pymin p.2 (target_height - 1)))

/-- `SeamlessDesktopManager._initiate_cursor_transition`: set
`transition_in_progress` and emit one `cursor_transition_requested`. -/
def _initiate_cursor_transition (s : DMState) (target_device direction : String)
    (tx ty : Int) : DMState × List Emit :=
  ({ s with transition_in_progress := true }, [⟨target_device, direction, tx, ty⟩])

/-- `SeamlessDesktopManager._handle_edge_hit`: resolve the adjacent device,
require it present and marked active, compute the target position and initiate
the transition; otherwise do nothing. -/
def _handle_edge_hit (s : DMState) (direction : String) (x y : Int) : DMState × List Emit :=
  if ¬(direction = "left" ∨ direction = "right") then (s, [])
  else
    match get_adjacent_device s.devices s.layout s.current_device direction with
    | none => (s, [])
    | some target_device =>
      match dictGet s.devices target_device with
      | none => (s, [])
      | some info =>
        if info.active = false then (s, [])
        else
          let p := _calculate_target_position s.screen_height direction x y info
          _initiate_cursor_transition s target_device direction p.1 p.2

/-- `SeamlessDesktopManager._on_mouse_move`: ignore everything once
`transition_in_progress` is set; otherwise run edge detection (threshold 5,
the `EdgeDetector` default used by `__init__`) and handle a hit. -/
def _on_mouse_move (s : DMState) (x y : Int) : DMState × List Emit :=
  if s.transition_in_progress then (s, [])
  else
    match check_edge s.screen_width 5 x y with
    | none => (s, [])
    | some edge => _handle_edge_hit s edge x y

/-- `SeamlessDesktopManager.add_connected_device`: `add_device` followed by
setting the `active` mark of the new record. -/
def add_connected_device (s : DMState) (device_id position : String) (w h : Int)
    (ip : String) : DMState :=
  let p := add_device s.devices s.layout device_id position w h ip
  { s with devices := set_active_flag p.1 device_id true, layout := p.2 }

/-- `SeamlessDesktopManager.__init__` + `_setup_default_layout`: the default
three-slot layout (`main` middle at the local screen size, `laptop` left and
`secondary` right at 1920x1080), with `transition_in_progress = False`. -/
def initState (screen_width screen_height : Int) : DMState :=
  let p0 := add_device [] [] ("main") ("middle") screen_width screen_height ("local")
  let p1 := add_device p0.1 p0.2 ("laptop") ("left") 1920 1080 ("unknown")
  let p2 := add_device p1.1 p1.2 ("secondary") ("right") 1920 1080 ("local")
  { devices := p2.1, layout := p2.2, screen_width := screen_width,
    screen_height := screen_height, current_device := "main",
    transition_in_progress := false }

/-- The state-mutating operations of one `SeamlessDesktopManager` instance
that are reachable after construction: a mouse-move event delivered to
`_on_mouse_move`, or a call to `add_connected_device`. -/
inductive DMOp where
  | mouseMove (x y : Int)
  | addDevice (device_id position : String) (w h : Int) (ip : String)
deriving Repr

/-- Apply one operation, returning the new state and the
`cursor_transition_requested` emissions it produced. -/
def stepOp (s : DMState) (op : DMOp) : DMState × List Emit :=
  match op with
  | .mouseMove x y => _on_mouse_move s x y
  | .addDevice device_id position w h ip =>
    (add_connected_device s device_id position w h ip, [])

/-- Run a sequence of operations, collecting every
`cursor_transition_requested` emission in order. -/
def runOps (s : DMState) : List DMOp → List Emit
  | [] => []
  | op :: ops =>
    let p := stepOp s op
    p.2 ++ runOps p.1 ops

end DesktopManager

namespace AppManager

/-- The envelope dictionaries `AppManager` builds or dispatches on, as a
tagged variant over the observed `type` values; `D` is the type of the opaque
`data` payload which every handler passes through unchanged. -/
inductive NetMsg (D : Type) where
  | handoff (edge : String)
  | inputEv (event_type : String) (dat : D)
  | ping (timestamp : Int)
  | pong (timestamp : Int)
  | device_info
  | unknown
deriving Repr, DecidableEq

/-- The `AppManager` fields read or written by the embedded handlers:
mode flag, the active/passive flag, presence of the `server` / `client`
objects, the `InputManager.is_capturing` flag, and whether the peer
connection is open. -/
structure AMState where
  is_server_mode : Bool
  is_active_device : Bool
  has_server : Bool
  has_client : Bool
  is_capturing : Bool
  connection_open : Bool
deriving Repr, DecidableEq

/-- Externally visible effects of one handler invocation: calls to
`InputManager.inject_input`, envelopes handed to
`broadcast_message`/`send_message`, and `connection_status_changed`
emissions. -/
structure Effects (D : Type) where
  injected : List (String × D)
  sent : List (NetMsg D)
  status_signals : List (Bool × String)
deriving Repr, DecidableEq

/-- No externally visible effect. -/
def noEffects {D : Type} : Effects D := ⟨[], [], []⟩

/-- `AppManager._on_server_data_received`: `handoff` makes the device
inactive and stops capture without touching the connection; `input` is
injected only under the source's guard `msg_type == 'input' and
self.is_active_device`; `ping` is answered with a broadcast `pong` (an absent
`self.server` raises inside the `try` and is swallowed). -/
def _on_server_data_received {D : Type} (s : AMState) (m : NetMsg D) :
    AMState × Effects D :=
  match m with
  | .handoff _ =>
    ({ s with is_active_device := false, is_capturing := false }, noEffects)
  | .inputEv event_type dat =>
    if s.is_active_device then (s, { noEffects with injected := [(event_type, dat)] })
    else (s, noEffects)
  | .ping ts =>
    if s.has_server then (s, { noEffects with sent := [.pong ts] }) else (s, noEffects)
  | _ => (s, noEffects)

/-- `AppManager._on_client_data_received`: `handoff` makes the device active
and starts capture (capture start is modelled as succeeding); `input` is
injected only under the source's guard `msg_type == 'input' and
self.is_active_device`; `pong` is only logged. -/
def _on_client_data_received {D : Type} (s : AMState) (m : NetMsg D) :
    AMState × Effects D :=
  match m with
  | .handoff _ =>
    ({ s with is_active_device := true, is_capturing := true }, noEffects)
  | .inputEv event_type dat =>
    if s.is_active_device then (s, { noEffects with injected := [(event_type, dat)] })
    else (s, noEffects)
  | _ => (s, noEffects)

/-- `AppManager._on_edge_reached`: when active and a peer object exists for
the current role, hand exactly one `handoff` envelope with the edge to the
network layer, become inactive and stop capture; otherwise do nothing.  The
connection itself is not touched. -/
def _on_edge_reached {D : Type} (s : AMState) (edge : String) : AMState × Effects D :=
  if s.is_active_device then
    if s.is_server_mode ∧ s.has_server then
      ({ s with is_active_device := false, is_capturing := false },
        { noEffects with sent := [.handoff edge] })
    else if ¬s.is_server_mode ∧ s.has_client then
      ({ s with is_active_device := false, is_capturing := false },
        { noEffects with sent := [.handoff edge] })
    else (s, noEffects)
  else (s, noEffects)

/-- `AppManager._on_disconnected_from_server`: log a warning and emit
`connection_status_changed(False, ...)`; nothing else. -/
def _on_disconnected_from_server {D : Type} (s : AMState) (reason : String) :
    AMState × Effects D :=
  (s, { noEffects with status_signals := [(false, "Disconnected: " ++ reason)] })

/-- `AppManager._on_client_disconnected`: log only. -/
def _on_client_disconnected {D : Type} (s : AMState) : AMState × Effects D :=
  (s, noEffects)

/-- A passive (non-capturing) client-role state with an open connection. -/
def passiveClient : AMState := ⟨false, false, false, true, false, true⟩

/-- An active client-role state with an open connection. -/
def activeClient : AMState := ⟨false, true, false, true, true, true⟩

/-- A passive server-role state with an open connection. -/
def passiveServer : AMState := ⟨true, false, true, false, false, true⟩

/-- An active server-role state with an open connection. -/
def activeServer : AMState := ⟨true, true, true, false, true, true⟩

end AppManager

namespace PeripheralServer

/-- `PeripheralServer.broadcast_message` together with `_send_to_client` and
`_disconnect_client`, including the CPython semantics of the loop
`for client_id, client_info in self.clients.items()`: a failing send is caught
by `_send_to_client`, which pops the failing client from `self.clients`;
because the dictionary changed size during iteration, the next step of the
`for` loop raises `RuntimeError`, which nothing catches.  `clients` lists the
registered client ids in insertion order and `sendFails` tells which sends
raise.  Returns (clients the message was delivered to, clients unregistered,
whether a `RuntimeError` escaped). -/
def broadcast_message (clients : List String) (sendFails : String → Bool) :
    List String × List String × Bool :=
  match clients with
  | [] => ([], [], false)
  | c :: cs =>
    if sendFails c then ([], [c], true)
    else
      let p := broadcast_message cs sendFails
      (c :: p.1, p.2.1, p.2.2)

/-- Registry-and-events state for the server-role per-client sessions. -/
structure SState where
  clients : List String
  disconnected_events : List String
deriving Repr, DecidableEq

/-- `PeripheralServer._disconnect_client`: when the id is registered, pop it,
close its socket and emit one `client_disconnected`; otherwise do nothing. -/
def _disconnect_client (s : SState) (client_id : String) : SState :=
  if client_id ∈ s.clients then
    { clients := s.clients.erase client_id,
      disconnected_events := s.disconnected_events ++ [client_id] }
  else s

end PeripheralServer

namespace PeripheralClient

/-- The `PeripheralClient` fields touched by `disconnect`, plus the emitted
`disconnected` signals. -/
structure CState where
  connected_status : Bool
  has_socket : Bool
  disconnected_events : List String
deriving Repr, DecidableEq

/-- `PeripheralClient.disconnect`: clear the connected flag, close and drop
the socket if present, and emit `disconnected` -- unconditionally, on every
call. -/
def disconnect (s : CState) : CState :=
  { connected_status := false, has_socket := false,
    disconnected_events := s.disconnected_events ++ [("User requested disconnect")] }

end PeripheralClient

namespace Framing

/-- The newline delimiter of the wire framing. -/
def nl : Char := Char.ofNat 10

/-- Python unicode whitespace, the character class stripped by `str.strip()`. -/
def pyWs (c : Char) : Bool :=
  (9 ≤ c.toNat && c.toNat ≤ 13) || (28 ≤ c.toNat && c.toNat ≤ 31) || c.toNat = 32 ||
  c.toNat = 133 || c.toNat = 160 || c.toNat = 5760 ||
  (8192 ≤ c.toNat && c.toNat ≤ 8202) || c.toNat = 8232 || c.toNat = 8233 ||
  c.toNat = 8239 || c.toNat = 8287 || c.toNat = 12288

/-- Python `line.strip()`. -/
def pystrip (s : List Char) : List Char :=
  ((s.dropWhile (fun c => pyWs c)).reverse.dropWhile (fun c => pyWs c)).reverse

/-- The per-line body of both receive loops: `line.strip()`, skip empty
lines, and hand the stripped line to the JSON parser (`parse` returns `none`
on a `json.JSONDecodeError`, which the source logs and drops). -/
def decodeLine {μ : Type} (parse : List Char → Option μ) (line : List Char) : Option μ :=
  let stripped := pystrip line
  if stripped = [] then none else parse stripped

theorem dropWhile_ne_nil_of_mem (buf : List Char) (h : nl ∈ buf) :
    buf.dropWhile (fun c => c ≠ nl) ≠ [] := by
  intro hcontra
  rw [List.dropWhile_eq_nil_iff] at hcontra
  simpa using hcontra nl h

theorem split_tail_length_lt (buf : List Char) (h : nl ∈ buf) :
    ((buf.dropWhile (fun c => c ≠ nl)).tail).length < buf.length := by
  have hne := dropWhile_ne_nil_of_mem buf h
  have h1 : (buf.dropWhile (fun c => c ≠ nl)).length ≤ buf.length :=
    (List.dropWhile_sublist _).length_le
  cases hd : buf.dropWhile (fun c => c ≠ nl) with
  | nil => exact absurd hd hne
  | cons a l =>
    rw [hd] at h1
    simp only [List.tail_cons, List.length_cons] at h1 ⊢
    omega

/-- The loop `while '\n' in buffer: line, buffer = buffer.split('\n', 1)` of
`PeripheralClient._receive_messages` and `PeripheralServer._handle_client`:
extract every complete newline-terminated line in order, returning them with
the unconsumed remainder (`split('\n', 1)` = everything before the first
newline, everything after it). -/
def processBuffer (buf : List Char) : List (List Char) × List Char :=
  if h : nl ∈ buf then
    let line := buf.takeWhile (fun c => c ≠ nl)
    let rest := (buf.dropWhile (fun c => c ≠ nl)).tail
    let p := processBuffer rest
    (line :: p.1, p.2)
  else ([], buf)
termination_by buf.length
decreasing_by exact split_tail_length_lt buf h

/-- One iteration of the outer receive loop: append the received chunk to the
buffer, split off every complete line and decode each. -/
def processChunk {μ : Type} (parse : List Char → Option μ) (buffer chunk : List Char) :
    List μ × List Char :=
  let p := processBuffer (buffer ++ chunk)
  (p.1.filterMap (decodeLine parse), p.2)

/-- The receive loop over a sequence of read chunks, collecting every decoded
message in order. -/
def receiveLoop {μ : Type} (parse : List Char → Option μ) :
    List Char → List (List Char) → List μ
  | _, [] => []
  | buffer, chunk :: chunks =>
    let p := processChunk parse buffer chunk
    p.1 ++ receiveLoop parse p.2 chunks

end Framing

namespace PyJson

/-- The double-quote character. -/
def dq : Char := Char.ofNat 34

/-- The backslash character. -/
def bsl : Char := Char.ofNat 92

/-- JSON values as built and consumed by the protocol: Python dicts with
string keys (as ordered association lists), lists, strings, ints, booleans
and None.  (Floats do not occur in the envelopes the protocol builds and are
not modelled.) -/
inductive Json where
  | null
  | bool (b : Bool)
  | int (n : Int)
  | str (s : List Char)
  | arr (items : List Json)
  | obj (fields : List (List Char × Json))

/-- Lowercase hex digit, as `json.dumps` emits in `\uXXXX` escapes. -/
def hexDig (n : Nat) : Char :=
  if n < 10 then Char.ofNat (48 + n) else Char.ofNat (87 + n)

/-- One `\uXXXX` escape (n < 0x10000). -/
def uEscape4 (n : Nat) : List Char :=
  [bsl, 'u', hexDig (n / 4096 % 16), hexDig (n / 256 % 16), hexDig (n / 16 % 16), hexDig (n % 16)]

/-- The `\uXXXX` escape of one code point, using a surrogate pair above the
basic multilingual plane -- the `ensure_ascii=True` behavior of
`json.dumps`. -/
def uEscape (n : Nat) : List Char :=
  if n < 65536 then uEscape4 n
  else uEscape4 (55296 + (n - 65536) / 1024) ++ uEscape4 (56320 + (n - 65536) % 1024)

/-- `json.dumps` escaping of one string character (`ensure_ascii=True`):
short escapes for quote, backslash and the named control characters,
`\uXXXX` for other controls and all non-ASCII, the character itself
otherwise. -/
def escChar (c : Char) : List Char :=
  if c = dq then [bsl, dq]
  else if c = bsl then [bsl, bsl]
  else if c.toNat = 8 then [bsl, 'b']
  else if c.toNat = 12 then [bsl, 'f']
  else if c.toNat = 10 then [bsl, 'n']
  else if c.toNat = 13 then [bsl, 'r']
  else if c.toNat = 9 then [bsl, 't']
  else if c.toNat < 32 ∨ 126 < c.toNat then uEscape c.toNat
  else [c]

/-- Escape a whole string body. -/
def escString : List Char → List Char
  | [] => []
  | c :: cs => escChar c ++ escString cs

/-- Decimal digits of a natural number, most significant first. -/
def natDigs (n : Nat) : List Char :=
  if h : n < 10 then [Char.ofNat (48 + n)]
  else natDigs (n / 10) ++ [Char.ofNat (48 + n % 10)]
termination_by n
decreasing_by exact Nat.div_lt_self (by omega) (by omega)

/-- `json.dumps` of a Python int. -/
def serInt (n : Int) : List Char :=
  if n < 0 then '-' :: natDigs n.natAbs else natDigs n.toNat

mutual

/-- `json.dumps(v)` with its default options (separators `', '` and `': '`,
`ensure_ascii=True`), over the modelled value domain. -/
def serValue : Json → List Char
  | .null => 'n' :: 'u' :: ['l', 'l']
  | .bool true => 't' :: 'r' :: ['u', 'e']
  | .bool false => 'f' :: 'a' :: ['l', 's', 'e']
  | .int n => serInt n
  | .str s => dq :: (escString s ++ [dq])
  | .arr items => '[' :: (serArrBody items ++ [']'])
  | .obj fields => '{' :: (serObjBody fields ++ ['}'])

/-- Comma-space separated array elements (complete body). -/
def serArrBody : List Json → List Char
  | [] => []
  | x :: xs => serValue x ++ serArrTail xs

/-- Array elements after the first, each preceded by `', '`. -/
def serArrTail : List Json → List Char
  | [] => []
  | x :: xs => ',' :: (' ' :: (serValue x ++ serArrTail xs))

/-- Comma-space separated object members (complete body); each key is a
quoted escaped string followed by `': '`. -/
def serObjBody : List (List Char × Json) → List Char
  | [] => []
  | (k, v) :: xs =>
    dq :: (escString k ++ (dq :: (':' :: (' ' :: (serValue v ++ serObjTail xs)))))

/-- Object members after the first, each preceded by `', '`. -/
def serObjTail : List (List Char × Json) → List Char
  | [] => []
  | (k, v) :: xs =>
    ',' :: (' ' :: (dq :: (escString k ++ (dq :: (':' :: (' ' :: (serValue v ++ serObjTail xs)))))))

end

/-- The whitespace characters `json.loads` skips between tokens. -/
def jsonWs (c : Char) : Bool :=
  c.toNat = 32 || c.toNat = 9 || c.toNat = 10 || c.toNat = 13

/-- Skip inter-token whitespace. -/
def skipWs (s : List Char) : List Char := s.dropWhile jsonWs

/-- Value of one hex digit (both cases), `none` for a non-hex character. -/
def hexVal (c : Char) : Option Nat :=
  if 48 ≤ c.toNat ∧ c.toNat ≤ 57 then some (c.toNat - 48)
  else if 97 ≤ c.toNat ∧ c.toNat ≤ 102 then some (c.toNat - 87)
  else if 65 ≤ c.toNat ∧ c.toNat ≤ 70 then some (c.toNat - 55)
  else none

/-- ASCII decimal digit test. -/
def isDig (c : Char) : Bool := 48 ≤ c.toNat && c.toNat ≤ 57

/-- Longest digit prefix and the remainder. -/
def spanDigits : List Char → List Char × List Char
  | [] => ([], [])
  | c :: cs =>
    if isDig c then
      let p := spanDigits cs
      (c :: p.1, p.2)
    else ([], c :: cs)

/-- Numeric value of a digit string. -/
def digsToNat (ds : List Char) : Nat :=
  ds.foldl (fun a c => a * 10 + (c.toNat - 48)) 0

/-- Four hex digits after `\u`: their value and the remaining input. -/
def readU (s : List Char) : Option (Nat × List Char) :=
  match s with
  | a :: b :: c :: d :: rest =>
    match hexVal a, hexVal b, hexVal c, hexVal d with
    | some ha, some hb, some hc, some hd =>
      some (ha * 4096 + hb * 256 + hc * 16 + hd, rest)
    | _, _, _, _ => none
  | _ => none

/-- One `\uXXXX` escape starting after the `\u`, with CPython's
surrogate-pair handling: a high surrogate immediately followed by a
`\uXXXX` low surrogate combines into one code point; otherwise the first
value stands alone.  Returns the decoded character and the remaining
input. -/
def readUEscaped (s : List Char) : Option (Char × List Char) :=
  match readU s with
  | none => none
  | some (n, rest) =>
    if 55296 ≤ n ∧ n ≤ 56319 then
      match rest with
      | b1 :: u1 :: rest2 =>
        if b1 = bsl ∧ u1 = 'u' then
          match readU rest2 with
          | some (m, rest3) =>
            if 56320 ≤ m ∧ m ≤ 57343 then
              some (Char.ofNat (65536 + (n - 55296) * 1024 + (m - 56320)), rest3)
            else some (Char.ofNat n, rest)
          | none => some (Char.ofNat n, rest)
        else some (Char.ofNat n, rest)
      | _ => some (Char.ofNat n, rest)
    else some (Char.ofNat n, rest)

/-- The string scanner of `json.loads` (strict mode), from just after the
opening quote: literal characters (raw control characters rejected), short
escapes, `\uXXXX` escapes via `readUEscaped`.  Returns the decoded string
and the input after the closing quote.  The fuel (an upper bound on the
number of decoded characters, supplied by the callers as the remaining input
length plus one) only makes totality evident. -/
def parseStringBody : Nat → List Char → Option (List Char × List Char)
  | 0, _ => none
  | _ + 1, [] => none
  | fuel + 1, c :: rest =>
    if c = dq then some ([], rest)
    else if c = bsl then
      match rest with
      | [] => none
      | e :: rest2 =>
        if e = dq then (parseStringBody fuel rest2).map (fun p => (dq :: p.1, p.2))
        else if e = bsl then (parseStringBody fuel rest2).map (fun p => (bsl :: p.1, p.2))
        else if e = '/' then (parseStringBody fuel rest2).map (fun p => ('/' :: p.1, p.2))
        else if e = 'b' then (parseStringBody fuel rest2).map (fun p => (Char.ofNat 8 :: p.1, p.2))
        else if e = 'f' then (parseStringBody fuel rest2).map (fun p => (Char.ofNat 12 :: p.1, p.2))
        else if e = 'n' then (parseStringBody fuel rest2).map (fun p => (Char.ofNat 10 :: p.1, p.2))
        else if e = 'r' then (parseStringBody fuel rest2).map (fun p => (Char.ofNat 13 :: p.1, p.2))
        else if e = 't' then (parseStringBody fuel rest2).map (fun p => (Char.ofNat 9 :: p.1, p.2))
        else if e = 'u' then
          match readUEscaped rest2 with
          | some pr => (parseStringBody fuel pr.2).map (fun p => (pr.1 :: p.1, p.2))
          | none => none
        else none
    else if c.toNat < 32 then none
    else (parseStringBody fuel rest).map (fun p => (c :: p.1, p.2))

mutual

/-- The recursive-descent value scanner of `json.loads`, fuel-indexed to make
the recursion evidently total (the fuel chosen by `jsonLoads` dominates the
recursion depth on every accepted input).  The number grammar is modelled for
integers, the only numbers the protocol produces. -/
def parseValue : Nat → List Char → Option (Json × List Char)
  | 0, _ => none
  | fuel + 1, input =>
    match skipWs input with
    | [] => none
    | c :: rest =>
      if c = 'n' then
        match rest with
        | 'u' :: 'l' :: 'l' :: rest2 => some (.null, rest2)
        | _ => none
      else if c = 't' then
        match rest with
        | 'r' :: 'u' :: 'e' :: rest2 => some (.bool true, rest2)
        | _ => none
      else if c = 'f' then
        match rest with
        | 'a' :: 'l' :: 's' :: 'e' :: rest2 => some (.bool false, rest2)
        | _ => none
      else if c = dq then
        (parseStringBody (rest.length + 1) rest).map (fun p => (.str p.1, p.2))
      else if c = '[' then
        (parseArrayElems fuel rest).map (fun p => (.arr p.1, p.2))
      else if c = '{' then
        (parseObjMembers fuel rest).map (fun p => (.obj p.1, p.2))
      else if c = '-' then
        match spanDigits rest with
        | ([], _) => none
        | (ds, rest2) => some (.int (-(digsToNat ds : Int)), rest2)
      else if isDig c then
        match spanDigits (c :: rest) with
        | ([], _) => none
        | (ds, rest2) => some (.int ((digsToNat ds : Int)), rest2)
      else none

/-- After `[`: empty array or first element then the tail. -/
def parseArrayElems : Nat → List Char → Option (List Json × List Char)
  | 0, _ => none
  | fuel + 1, input =>
    match skipWs input with
    | [] => none
    | c :: rest =>
      if c = ']' then some ([], rest)
      else
        (parseValue fuel input).bind (fun p =>
          (parseArrayTail fuel p.2).map (fun q => (p.1 :: q.1, q.2)))

/-- After one array element: `]` ends, `,` continues. -/
def parseArrayTail : Nat → List Char → Option (List Json × List Char)
  | 0, _ => none
  | fuel + 1, input =>
    match skipWs input with
    | [] => none
    | c :: rest =>
      if c = ']' then some ([], rest)
      else if c = ',' then
        (parseValue fuel rest).bind (fun p =>
          (parseArrayTail fuel p.2).map (fun q => (p.1 :: q.1, q.2)))
      else none

/-- After `{`: empty object or first `"key": value` member then the tail. -/
def parseObjMembers : Nat → List Char → Option (List (List Char × Json) × List Char)
  | 0, _ => none
  | fuel + 1, input =>
    match skipWs input with
    | [] => none
    | c :: rest =>
      if c = '}' then some ([], rest)
      else if c = dq then
        (parseStringBody (rest.length + 1) rest).bind (fun pk =>
          match skipWs pk.2 with
          | [] => none
          | c2 :: rest2 =>
            if c2 = ':' then
              (parseValue fuel rest2).bind (fun pv =>
                (parseObjTail fuel pv.2).map (fun q => ((pk.1, pv.1) :: q.1, q.2)))
            else none)
      else none

/-- After one object member: `}` ends, `,` continues with another member. -/
def parseObjTail : Nat → List Char → Option (List (List Char × Json) × List Char)
  | 0, _ => none
  | fuel + 1, input =>
    match skipWs input with
    | [] => none
    | c :: rest =>
      if c = '}' then some ([], rest)
      else if c = ',' then
        match skipWs rest with
        | [] => none
        | c2 :: rest2 =>
          if c2 = dq then
            (parseStringBody (rest2.length + 1) rest2).bind (fun pk =>
              match skipWs pk.2 with
              | [] => none
              | c3 :: rest3 =>
                if c3 = ':' then
                  (parseValue fuel rest3).bind (fun pv =>
                    (parseObjTail fuel pv.2).map (fun q => ((pk.1, pv.1) :: q.1, q.2)))
                else none)
          else none
      else none

end

mutual

/-- Fuel budget of one value: dominates the number of fuel decrements the
scanner performs on the value's serialization. -/
def jsize : Json → Nat
  | .null => 1
  | .bool _ => 1
  | .int _ => 1
  | .str _ => 1
  | .arr items => jsizeItems items + 1
  | .obj fields => jsizeFields fields + 1

def jsizeItems : List Json → Nat
  | [] => 1
  | x :: xs => jsize x + jsizeTail xs + 1

def jsizeTail : List Json → Nat
  | [] => 1
  | x :: xs => jsize x + jsizeTail xs + 1

def jsizeFields : List (List Char × Json) → Nat
  | [] => 1
  | kv :: xs => jsize kv.2 + jsizeFTail xs + 1

def jsizeFTail : List (List Char × Json) → Nat
  | [] => 1
  | kv :: xs => jsize kv.2 + jsizeFTail xs + 1

end

/-- `json.loads(s)`: scan one value, allow trailing whitespace, reject
anything else.  The fuel `2|s| + 2` strictly dominates the scanner's
recursion depth on every input it accepts. -/
def jsonLoads (s : List Char) : Option Json :=
  match parseValue (2 * s.length + 2) s with
  | some (v, rest) => if skipWs rest = [] then some v else none
  | none => none

/-- `json.dumps(message) + '\n'`, the encoding of one wire record
(`PeripheralClient.send_message`, `PeripheralServer._send_to_client`). -/
def encodeRecord (v : Json) : List Char := serValue v ++ [Framing.nl]

/-- Decoding one received record: the receive loops split the delimiter off,
`strip()` the line and hand it to `json.loads`. -/
def decodeRecord (r : List Char) : Option Json := jsonLoads (Framing.pystrip r)

/-- The remainder after a serialized value: empty input or one of the three
closers/separators, which never begins a new number. -/
def headOk (rest : List Char) : Prop :=
  rest = [] ∨ ∃ t, rest = ',' :: t ∨ rest = ']' :: t ∨ rest = '}' :: t

/-- The characters a serialized value can start with. -/
def valueStart (c : Char) : Prop :=
  c = 'n' ∨ c = 't' ∨ c = 'f' ∨ c = dq ∨ c = '[' ∨ c = '{' ∨ c = '-' ∨ isDig c = true

end PyJson


namespace DesktopManager

theorem stepOp_tip_mono (s : DMState) (op : DMOp)
    (h : s.transition_in_progress = true) :
    (stepOp s op).1.transition_in_progress = true ∧ (stepOp s op).2 = [] := by
  cases op with
  | mouseMove x y =>
    simp [stepOp, _on_mouse_move, h]
  | addDevice id pos w hh ip =>
    simp [stepOp, add_connected_device, h]

theorem stepOp_emit_sets_tip (s : DMState) (op : DMOp) :
    (stepOp s op).2.length ≤ 1 ∧
    ((stepOp s op).2 ≠ [] → (stepOp s op).1.transition_in_progress = true) := by
  cases op with
  | mouseMove x y =>
    simp only [stepOp, _on_mouse_move]
    split
    · simp
    · split
      · simp
      · simp only [_handle_edge_hit]
        split
        · simp
        · split
          · simp
          · split
            · simp
            · split
              · simp
              · simp [_initiate_cursor_transition]
  | addDevice id pos w hh ip =>
    simp [stepOp]

theorem runOps_tip_true (ops : List DMOp) :
    ∀ s : DMState, s.transition_in_progress = true → runOps s ops = [] := by
  induction ops with
  | nil => intro s _; rfl
  | cons op ops ih =>
    intro s h
    have hm := stepOp_tip_mono s op h
    simp [runOps, hm.2, ih _ hm.1]

theorem runOps_length_le (ops : List DMOp) :
    ∀ s : DMState, (runOps s ops).length ≤ 1 := by
  induction ops with
  | nil => intro s; simp [runOps]
  | cons op ops ih =>
    intro s
    have hb := stepOp_emit_sets_tip s op
    have hstep : runOps s (op :: ops) = (stepOp s op).2 ++ runOps (stepOp s op).1 ops := rfl
    rw [hstep, List.length_append]
    by_cases he : (stepOp s op).2 = []
    · rw [he]; simpa using ih (stepOp s op).1
    · have ht := hb.2 he
      rw [runOps_tip_true ops _ ht]
      simpa using hb.1

theorem dictGet_set_active_flag (devices : List (String × DeviceRec))
    (device_id : String) (b : Bool) (key : String) :
    dictGet (set_active_flag devices device_id b) key =
      (dictGet devices key).map
        (fun r => if key = device_id then { r with active := b } else r) := by
  induction devices with
  | nil => rfl
  | cons kv rest ih =>
    obtain ⟨k, w⟩ := kv
    simp only [set_active_flag]
    by_cases hKD : k = device_id
    · rw [if_pos hKD]
      by_cases hk : k = key
      · subst hk
        simp [dictGet, hKD]
      · simp [dictGet, hk, ih]
    · rw [if_neg hKD]
      by_cases hk : k = key
      · subst hk
        simp [dictGet, hKD]
      · simp [dictGet, hk, ih]

end DesktopManager

theorem clamp_bounds (lo v hi : Int) (h : lo ≤ hi) :
    lo ≤ pymax lo (pymin v hi) ∧ pymax lo (pymin v hi) ≤ hi := by
  unfold pymax pymin
  split_ifs <;> omega

/-- Claim C1 (code behavior at the failing input): the source guards both
injection sites with `msg_type == 'input' and self.is_active_device`, so a
Passive device (`is_active_device = false`) receiving an `input` envelope
never calls `inject_input`, while an Active device injects the contained
event -- the opposite of the specified behavior, for the server-role and the
client-role handler alike. -/
theorem claim1_input_injection_guard :
    ((AppManager._on_client_data_received (D := String) AppManager.passiveClient
          (.inputEv ("mouse_move") ("x:100,y:200"))).2.injected = [] ∧
      (AppManager._on_server_data_received (D := String) AppManager.passiveServer
          (.inputEv ("mouse_move") ("x:100,y:200"))).2.injected = []) ∧
    ((AppManager._on_client_data_received (D := String) AppManager.activeClient
          (.inputEv ("mouse_move") ("x:100,y:200"))).2.injected =
        [(("mouse_move"), ("x:100,y:200"))] ∧
      (AppManager._on_server_data_received (D := String) AppManager.activeServer
          (.inputEv ("mouse_move") ("x:100,y:200"))).2.injected =
        [(("mouse_move"), ("x:100,y:200"))]) :=
  ⟨⟨rfl, rfl⟩, rfl, rfl⟩

/-- Claim C2: an edge hit while Active with a peer object for the current
role sends exactly one `handoff` envelope carrying the edge, stops capture
and makes the device Passive, leaving the connection open; while not Active,
nothing is sent and the state is unchanged. -/
theorem claim2_edge_reached_handoff {D : Type} (s : AppManager.AMState) (edge : String) :
    (s.is_active_device = true →
      (s.is_server_mode = true ∧ s.has_server = true) ∨
          (s.is_server_mode = false ∧ s.has_client = true) →
        (AppManager._on_edge_reached (D := D) s edge).2.sent = [.handoff edge] ∧
          (AppManager._on_edge_reached (D := D) s edge).2.injected = [] ∧
          (AppManager._on_edge_reached (D := D) s edge).1.is_active_device = false ∧
          (AppManager._on_edge_reached (D := D) s edge).1.is_capturing = false ∧
          (AppManager._on_edge_reached (D := D) s edge).1.connection_open =
            s.connection_open) ∧
    (s.is_active_device = false →
      AppManager._on_edge_reached (D := D) s edge = (s, AppManager.noEffects)) := by
  constructor
  · intro hA hConn
    rcases hConn with ⟨h1, h2⟩ | ⟨h1, h2⟩ <;>
      simp [AppManager._on_edge_reached, hA, h1, h2, AppManager.noEffects]
  · intro hA
    simp [AppManager._on_edge_reached, hA]

/-- Witness for C2 at a concrete active server-role state. -/
theorem claim2_edge_reached_handoff_witness :
    (AppManager._on_edge_reached (D := String) AppManager.activeServer ("left")).2.sent =
        [.handoff ("left")] ∧
      (AppManager._on_edge_reached (D := String)
          AppManager.activeServer ("left")).1.is_active_device = false := by
  have h := (claim2_edge_reached_handoff (D := String) AppManager.activeServer ("left")).1
    rfl (Or.inl ⟨rfl, rfl⟩)
  exact ⟨h.1, h.2.2.1⟩

/-- Claim C3 counterexample: at a concrete Passive state, a delivered
disconnect event leaves `is_active_device = false` -- the device does not
transition back to Active as the claim states (client role and server role
alike). -/
theorem claim3_disconnect_stays_passive :
    (AppManager._on_disconnected_from_server (D := String) AppManager.passiveClient
        ("Connection lost")).1.is_active_device = false ∧
      (AppManager._on_client_disconnected (D := String)
          AppManager.passiveServer).1.is_active_device = false :=
  ⟨rfl, rfl⟩

/-- Claim C3 (amended): the disconnect handlers only log and emit a status
signal; the whole `AppManager` state -- in particular `is_active_device` and
the capture flag -- is left unchanged in every state, and no envelope is sent
and nothing is injected. -/
theorem claim3_disconnect_leaves_state {D : Type} (s : AppManager.AMState) (reason : String) :
    (AppManager._on_disconnected_from_server (D := D) s reason).1 = s ∧
      (AppManager._on_disconnected_from_server (D := D) s reason).2.sent = [] ∧
      (AppManager._on_disconnected_from_server (D := D) s reason).2.injected = [] ∧
      (AppManager._on_client_disconnected (D := D) s).1 = s ∧
      (AppManager._on_client_disconnected (D := D) s).2 = AppManager.noEffects :=
  ⟨rfl, rfl, rfl, rfl, rfl⟩

/-- Claim C6: for direction `left` the target entry point is
`x = target_width - 10` and `y = int((source_y / source_height) * target_height)`,
both clamped into `[0, width-1] x [0, height-1]`; in particular a 1080-high
source at Y=540 entering a 1920x1080 neighbor yields `(1910, 540)`. -/
theorem claim6_target_entry_left
    (source_x source_y screen_height target_width target_height : Int)
    (pos ip : String) (act : Bool)
    (hw : 1 ≤ target_width) (hh : 1 ≤ target_height) :
    (DesktopManager._calculate_target_position screen_height ("left") source_x source_y
        ⟨pos, target_width, target_height, ip, act⟩ =
      (pymax 0 (pymin (target_width - 10) (target_width - 1)),
        pymax 0 (pymin (pyInt (((source_y : ℚ) / (screen_height : ℚ)) * (target_height : ℚ)))
          (target_height - 1)))) ∧
    (0 ≤ (DesktopManager._calculate_target_position screen_height ("left") source_x source_y
          ⟨pos, target_width, target_height, ip, act⟩).1 ∧
      (DesktopManager._calculate_target_position screen_height ("left") source_x source_y
          ⟨pos, target_width, target_height, ip, act⟩).1 ≤ target_width - 1 ∧
      0 ≤ (DesktopManager._calculate_target_position screen_height ("left") source_x source_y
          ⟨pos, target_width, target_height, ip, act⟩).2 ∧
      (DesktopManager._calculate_target_position screen_height ("left") source_x source_y
          ⟨pos, target_width, target_height, ip, act⟩).2 ≤ target_height - 1) ∧
    DesktopManager._calculate_target_position 1080 ("left") 3 540
        ⟨("left"), 1920, 1080, ("unknown"), true⟩ = (1910, 540) := by
  have heq : DesktopManager._calculate_target_position screen_height ("left") source_x source_y
      ⟨pos, target_width, target_height, ip, act⟩ =
      (pymax 0 (pymin (target_width - 10) (target_width - 1)),
        pymax 0 (pymin (pyInt (((source_y : ℚ) / (screen_height : ℚ)) * (target_height : ℚ)))
          (target_height - 1))) := by
    simp [DesktopManager._calculate_target_position]
  refine ⟨heq, ?_, ?_⟩
  · rw [heq]
    have hx := clamp_bounds 0 (target_width - 10) (target_width - 1) (by omega)
    have hy := clamp_bounds 0
      (pyInt (((source_y : ℚ) / (screen_height : ℚ)) * (target_height : ℚ)))
      (target_height - 1) (by omega)
    exact ⟨hx.1, hx.2, hy.1, hy.2⟩
  · norm_num [DesktopManager._calculate_target_position, pymax, pymin, pyInt]

/-- Witness for C6 at the concrete 1920x1080 scenario. -/
theorem claim6_target_entry_left_witness :
    DesktopManager._calculate_target_position 1080 ("left") 3 540
        ⟨("left"), 1920, 1080, ("unknown"), true⟩ = (1910, 540) :=
  (claim6_target_entry_left 3 540 1080 1920 1080 ("left") ("unknown") true
    (by decide) (by decide)).2.2

/-- Claim C7 counterexample: in the default layout, `laptop` occupies the
slot left of `main` but is marked `active = False`, yet
`get_adjacent_device("main", "left")` still returns it -- the source performs
no active/connected check inside `get_adjacent_device`. -/
theorem claim7_active_mark_not_checked :
    DesktopManager.get_adjacent_device (DesktopManager.initState 2560 1440).devices
        (DesktopManager.initState 2560 1440).layout ("main") ("left") = some ("laptop") ∧
      (dictGet (DesktopManager.initState 2560 1440).devices ("laptop")).map
          DesktopManager.DeviceRec.active = some false :=
  ⟨rfl, rfl⟩

/-- Claim C7 (amended): `get_adjacent_device` returns the occupant of the
slot selected by the fixed adjacency table, and `none` when the current
device is unknown, the table has no entry, or the slot is unoccupied; the
active/connected mark of the neighbor is NOT consulted (that check is done by
the caller `_handle_edge_hit`), so the result is invariant under flipping any
active flag. -/
theorem claim7_get_adjacent_characterization
    (devices : List (String × DesktopManager.DeviceRec))
    (layout : List (String × String)) (current direction : String) :
    (∀ d, DesktopManager.get_adjacent_device devices layout current direction = some d →
        ∃ info target_pos, dictGet devices current = some info ∧
          DesktopManager.adjacency info.position direction = some target_pos ∧
          dictGet layout target_pos = some d) ∧
      (dictGet devices current = none →
        DesktopManager.get_adjacent_device devices layout current direction = none) ∧
      (∀ device_id b,
        DesktopManager.get_adjacent_device
            (DesktopManager.set_active_flag devices device_id b) layout current direction =
          DesktopManager.get_adjacent_device devices layout current direction) := by
  refine ⟨?_, ?_, ?_⟩
  · intro d hd
    rcases hinfo : dictGet devices current with _ | info
    · simp [DesktopManager.get_adjacent_device, hinfo] at hd
    · rcases hadj : DesktopManager.adjacency info.position direction with _ | target_pos
      · simp [DesktopManager.get_adjacent_device, hinfo, hadj] at hd
      · refine ⟨info, target_pos, rfl, hadj, ?_⟩
        simpa [DesktopManager.get_adjacent_device, hinfo, hadj] using hd
  · intro h
    simp [DesktopManager.get_adjacent_device, h]
  · intro device_id b
    simp only [DesktopManager.get_adjacent_device, DesktopManager.dictGet_set_active_flag]
    rcases h : dictGet devices current with _ | info
    · simp
    · by_cases hc : current = device_id <;> simp [hc]

/-- Witness for C7 applied at the default layout. -/
theorem claim7_get_adjacent_characterization_witness :
    ∃ info target_pos,
      dictGet (DesktopManager.initState 2560 1440).devices ("main") = some info ∧
        DesktopManager.adjacency info.position ("left") = some target_pos ∧
        dictGet (DesktopManager.initState 2560 1440).layout target_pos = some ("laptop") :=
  (claim7_get_adjacent_characterization (DesktopManager.initState 2560 1440).devices
    (DesktopManager.initState 2560 1440).layout ("main") ("left")).1 ("laptop") rfl

/-- Claim C8 (code behavior at the failing input): with registered clients
`alpha, beta` in insertion order and the send to `alpha` failing, the failing
client is unregistered but the broadcast loop then raises `RuntimeError`
(dictionary changed size during iteration), so `beta` never receives the
message; with no failure every client receives it. -/
theorem claim8_broadcast_aborts_on_failure :
    PeripheralServer.broadcast_message (("alpha") :: ("beta") :: []) (fun c => c == "alpha") =
        ([], [("alpha")], true) ∧
      PeripheralServer.broadcast_message (("alpha") :: ("beta") :: []) (fun _ => false) =
        ([("alpha"), ("beta")], [], false) := by
  constructor <;> rfl

/-- Claim C9 counterexample: calling `PeripheralClient.disconnect` twice on a
connected client emits two `disconnected` events, not one -- the second call
is not a no-op. -/
theorem claim9_client_disconnect_not_idempotent :
    (PeripheralClient.disconnect (PeripheralClient.disconnect
        ⟨true, true, []⟩)).disconnected_events.length = 2 :=
  rfl

/-- Claim C9 (amended): the server-role `_disconnect_client` is idempotent
(with the registry's keys unique, a second call for the same id is the
identity, so exactly one `client_disconnected` event is produced), while the
client-role `disconnect` emits one `disconnected` event on every call, so two
calls produce two events. -/
theorem claim9_close_idempotence (s : PeripheralServer.SState) (client_id : String)
    (hnd : s.clients.Nodup) (c : PeripheralClient.CState) :
    PeripheralServer._disconnect_client
        (PeripheralServer._disconnect_client s client_id) client_id =
      PeripheralServer._disconnect_client s client_id ∧
      (PeripheralClient.disconnect (PeripheralClient.disconnect c)).disconnected_events.length =
        c.disconnected_events.length + 2 := by
  constructor
  · unfold PeripheralServer._disconnect_client
    by_cases h : client_id ∈ s.clients
    · simp only [h, if_true]
      have hnot : client_id ∉ s.clients.erase client_id := by
        intro hmem
        rcases (List.Nodup.mem_erase_iff hnd).1 hmem with ⟨hne, _⟩
        exact hne rfl
      simp [hnot]
    · simp [h]
  · simp [PeripheralClient.disconnect]

/-- Witness for C9 on a concrete two-client registry. -/
theorem claim9_close_idempotence_witness :
    PeripheralServer._disconnect_client
        (PeripheralServer._disconnect_client ⟨[("alpha"), ("beta")], []⟩ ("alpha")) ("alpha") =
      PeripheralServer._disconnect_client ⟨[("alpha"), ("beta")], []⟩ ("alpha") :=
  (claim9_close_idempotence ⟨[("alpha"), ("beta")], []⟩ ("alpha") (by decide)
    ⟨true, true, []⟩).1

/-- Claim C10: `transition_in_progress` starts `false`, is set by the first
initiated cursor transition, and no operation ever resets it; hence over any
sequence of mouse-move / add-device operations on one instance at most one
`cursor_transition_requested` is emitted. -/
theorem claim10_one_shot_transition (screen_width screen_height : Int)
    (ops : List DesktopManager.DMOp) :
    (DesktopManager.initState screen_width screen_height).transition_in_progress = false ∧
      (DesktopManager.runOps (DesktopManager.initState screen_width screen_height) ops).length ≤ 1 ∧
      (∀ (s : DesktopManager.DMState) (op : DesktopManager.DMOp),
        (DesktopManager.stepOp s op).2 ≠ [] →
          (DesktopManager.stepOp s op).1.transition_in_progress = true) ∧
      (∀ (s : DesktopManager.DMState) (op : DesktopManager.DMOp),
        s.transition_in_progress = true →
          (DesktopManager.stepOp s op).1.transition_in_progress = true ∧
            (DesktopManager.stepOp s op).2 = []) :=
  ⟨rfl, DesktopManager.runOps_length_le ops _,
    fun s op h => (DesktopManager.stepOp_emit_sets_tip s op).2 h,
    fun s op h => DesktopManager.stepOp_tip_mono s op h⟩

/-- Witness for C10: once the flag is set, a further edge hit at x = 0 emits
nothing. -/
theorem claim10_one_shot_transition_witness :
    (DesktopManager.stepOp
        { DesktopManager.initState 2560 1440 with transition_in_progress := true }
        (.mouseMove 0 0)).2 = [] :=
  ((claim10_one_shot_transition 2560 1440 []).2.2.2
    { DesktopManager.initState 2560 1440 with transition_in_progress := true }
    (.mouseMove 0 0) rfl).2

namespace Framing

theorem tail_append_of_ne_nil {α : Type} (l b : List α) (h : l ≠ []) :
    (l ++ b).tail = l.tail ++ b := by
  cases l with
  | nil => exact absurd rfl h
  | cons x xs => simp

theorem takeWhile_append_left {α : Type} (p : α → Bool) (a b : List α)
    (h : a.dropWhile p ≠ []) : (a ++ b).takeWhile p = a.takeWhile p := by
  induction a with
  | nil => exact absurd rfl h
  | cons x xs ih =>
    by_cases hp : p x
    · simp only [List.dropWhile_cons, hp, if_true] at h
      simp [List.takeWhile_cons, hp, ih h]
    · simp [List.takeWhile_cons, hp]

theorem dropWhile_append_left {α : Type} (p : α → Bool) (a b : List α)
    (h : a.dropWhile p ≠ []) : (a ++ b).dropWhile p = a.dropWhile p ++ b := by
  induction a with
  | nil => exact absurd rfl h
  | cons x xs ih =>
    by_cases hp : p x
    · simp only [List.dropWhile_cons, hp, if_true] at h
      simp [List.dropWhile_cons, hp, ih h]
    · simp [List.dropWhile_cons, hp]

theorem processBuffer_eq_pos (buf : List Char) (h : nl ∈ buf) :
    processBuffer buf =
      (buf.takeWhile (fun c => c ≠ nl) ::
          (processBuffer ((buf.dropWhile (fun c => c ≠ nl)).tail)).1,
        (processBuffer ((buf.dropWhile (fun c => c ≠ nl)).tail)).2) := by
  rw [processBuffer]
  simp [h]

theorem processBuffer_eq_neg (buf : List Char) (h : nl ∉ buf) :
    processBuffer buf = ([], buf) := by
  rw [processBuffer]
  simp [h]

theorem processBuffer_rem_noNL (buf : List Char) : nl ∉ (processBuffer buf).2 := by
  by_cases h : nl ∈ buf
  · rw [processBuffer_eq_pos buf h]
    exact processBuffer_rem_noNL ((buf.dropWhile (fun c => c ≠ nl)).tail)
  · rw [processBuffer_eq_neg buf h]
    exact h
termination_by buf.length
decreasing_by exact split_tail_length_lt buf h

theorem processBuffer_append (a b : List Char) :
    processBuffer (a ++ b) =
      ((processBuffer a).1 ++ (processBuffer ((processBuffer a).2 ++ b)).1,
        (processBuffer ((processBuffer a).2 ++ b)).2) := by
  by_cases h : nl ∈ a
  · have hdne : a.dropWhile (fun c => c ≠ nl) ≠ [] := dropWhile_ne_nil_of_mem a h
    have hmem : nl ∈ a ++ b := List.mem_append_left b h
    have ih := processBuffer_append ((a.dropWhile (fun c => c ≠ nl)).tail) b
    rw [processBuffer_eq_pos (a ++ b) hmem, processBuffer_eq_pos a h,
      takeWhile_append_left _ a b hdne, dropWhile_append_left _ a b hdne,
      tail_append_of_ne_nil _ b hdne, ih]
    simp
  · rw [processBuffer_eq_neg a h]
    simp
termination_by a.length
decreasing_by exact split_tail_length_lt a h

theorem receiveLoop_eq {μ : Type} (parse : List Char → Option μ) (chunks : List (List Char)) :
    ∀ buffer : List Char, nl ∉ buffer →
      receiveLoop parse buffer chunks =
        (processBuffer (buffer ++ chunks.join)).1.filterMap (decodeLine parse) := by
  induction chunks with
  | nil =>
    intro buffer hb
    have : receiveLoop parse buffer [] = [] := rfl
    rw [this]
    rw [show buffer ++ List.join [] = buffer by simp]
    simp [processBuffer_eq_neg buffer hb]
  | cons c cs ih =>
    intro buffer hb
    have hrem := processBuffer_rem_noNL (buffer ++ c)
    have hstep : receiveLoop parse buffer (c :: cs) =
        ((processBuffer (buffer ++ c)).1.filterMap (decodeLine parse)) ++
          receiveLoop parse (processBuffer (buffer ++ c)).2 cs := rfl
    rw [hstep, ih _ hrem]
    rw [show buffer ++ List.join (c :: cs) = (buffer ++ c) ++ List.join cs by simp]
    rw [processBuffer_append (buffer ++ c) (List.join cs)]
    simp [List.filterMap_append]

end Framing

/-- Claim C4: the receive-loop buffer algorithm (append each read chunk to
the buffer, repeatedly split at the newline delimiter, strip and parse each
complete line) decodes, for every partition of the byte stream into read
chunks and for every parser, exactly the same message sequence in the same
order as delivering all bytes in one single chunk. -/
theorem claim4_framing_chunk_independent {μ : Type} (parse : List Char → Option μ)
    (chunks : List (List Char)) :
    Framing.receiveLoop parse [] chunks =
      Framing.receiveLoop parse [] [chunks.join] := by
  rw [Framing.receiveLoop_eq parse chunks [] (by simp),
    Framing.receiveLoop_eq parse [chunks.join] [] (by simp)]
  simp

namespace PyJson

theorem char_toNat_valid (c : Char) :
    c.toNat < 55296 ∨ (57343 < c.toNat ∧ c.toNat < 1114112) := by
  rcases c.valid with h | ⟨h1, h2⟩
  · exact Or.inl (UInt32.toNat_lt_of_lt (by decide) h)
  · exact Or.inr ⟨UInt32.lt_toNat_of_lt (by decide) h1, UInt32.toNat_lt_of_lt (by decide) h2⟩

theorem hexVal_hexDig {k : Nat} (hk : k < 16) : hexVal (hexDig k) = some k := by
  interval_cases k <;> decide

theorem psb_dq (fuel : Nat) (t : List Char) :
    parseStringBody (fuel + 1) (dq :: t) = some ([], t) := by
  simp [parseStringBody]

theorem psb_plain (fuel : Nat) (c : Char) (t : List Char) (h1 : ¬c = dq) (h2 : ¬c = bsl)
    (h3 : 32 ≤ c.toNat) :
    parseStringBody (fuel + 1) (c :: t) =
      (parseStringBody fuel t).map (fun p => (c :: p.1, p.2)) := by
  simp only [parseStringBody]
  rw [if_neg h1, if_neg h2, if_neg (by omega)]

theorem readU_uEscape4 (n : Nat) (hn : n < 65536) (t : List Char) :
    readU (hexDig (n / 4096 % 16) :: hexDig (n / 256 % 16) :: hexDig (n / 16 % 16) ::
        hexDig (n % 16) :: t) = some (n, t) := by
  simp only [readU, hexVal_hexDig (Nat.mod_lt _ (by omega))]
  congr 1
  congr 1
  omega

theorem readUEscaped_single (n : Nat) (hn : n < 65536) (hs : ¬(55296 ≤ n ∧ n ≤ 56319))
    (t : List Char) :
    readUEscaped (hexDig (n / 4096 % 16) :: hexDig (n / 256 % 16) :: hexDig (n / 16 % 16) ::
        hexDig (n % 16) :: t) = some (Char.ofNat n, t) := by
  simp only [readUEscaped, readU_uEscape4 n hn]
  rw [if_neg hs]

theorem readUEscaped_pair (n m : Nat) (hn : 55296 ≤ n ∧ n ≤ 56319)
    (hm : 56320 ≤ m ∧ m ≤ 57343) (t : List Char) :
    readUEscaped (hexDig (n / 4096 % 16) :: hexDig (n / 256 % 16) :: hexDig (n / 16 % 16) ::
        hexDig (n % 16) :: bsl :: 'u' :: hexDig (m / 4096 % 16) :: hexDig (m / 256 % 16) ::
        hexDig (m / 16 % 16) :: hexDig (m % 16) :: t) =
      some (Char.ofNat (65536 + (n - 55296) * 1024 + (m - 56320)), t) := by
  simp only [readUEscaped, readU_uEscape4 n (by omega), readU_uEscape4 m (by omega)]
  rw [if_pos hn]
  simp [hm]

theorem uEscape4_eq (n : Nat) :
    uEscape4 n = bsl :: 'u' :: hexDig (n / 4096 % 16) :: hexDig (n / 256 % 16) ::
      hexDig (n / 16 % 16) :: hexDig (n % 16) :: [] := rfl

theorem psb_u_single (fuel : Nat) (n : Nat) (hn : n < 65536) (hs : ¬(55296 ≤ n ∧ n ≤ 56319))
    (t : List Char) :
    parseStringBody (fuel + 1) (uEscape4 n ++ t) =
      (parseStringBody fuel t).map (fun p => (Char.ofNat n :: p.1, p.2)) := by
  rw [uEscape4_eq]
  have hu := readUEscaped_single n hn hs
  simp only [List.cons_append, List.nil_append]
  simp +decide [parseStringBody, hu]

theorem psb_u_pair (fuel : Nat) (n m : Nat) (hn : 55296 ≤ n ∧ n ≤ 56319)
    (hm : 56320 ≤ m ∧ m ≤ 57343) (t : List Char) :
    parseStringBody (fuel + 1) (uEscape4 n ++ (uEscape4 m ++ t)) =
      (parseStringBody fuel t).map
        (fun p => (Char.ofNat (65536 + (n - 55296) * 1024 + (m - 56320)) :: p.1, p.2)) := by
  rw [uEscape4_eq, uEscape4_eq]
  have hu := readUEscaped_pair n m hn hm
  simp only [List.cons_append, List.nil_append]
  simp +decide [parseStringBody, hu]

theorem uEscape_lt (n : Nat) (h : n < 65536) : uEscape n = uEscape4 n := by
  simp [uEscape, h]

theorem uEscape_ge (n : Nat) (h : ¬n < 65536) :
    uEscape n = uEscape4 (55296 + (n - 65536) / 1024) ++ uEscape4 (56320 + (n - 65536) % 1024) := by
  simp [uEscape, h]

theorem psb_escChar (fuel : Nat) (c : Char) (t : List Char) :
    parseStringBody (fuel + 1) (escChar c ++ t) =
      (parseStringBody fuel t).map (fun p => (c :: p.1, p.2)) := by
  have hval := char_toNat_valid c
  by_cases h1 : c = dq
  · subst h1
    simp +decide [escChar, parseStringBody]
  · by_cases h2 : c = bsl
    · subst h2
      simp +decide [escChar, parseStringBody]
    · by_cases h3 : c.toNat = 8
      · rw [show escChar c = [bsl, 'b'] by simp [escChar, h1, h2, h3]]
        have hc : Char.ofNat 8 = c := by rw [← h3, Char.ofNat_toNat]
        simp +decide [parseStringBody]
        rw [hc]
      · by_cases h4 : c.toNat = 12
        · rw [show escChar c = [bsl, 'f'] by simp [escChar, h1, h2, h3, h4]]
          have hc : Char.ofNat 12 = c := by rw [← h4, Char.ofNat_toNat]
          simp +decide [parseStringBody]
          rw [hc]
        · by_cases h5 : c.toNat = 10
          · rw [show escChar c = [bsl, 'n'] by simp [escChar, h1, h2, h3, h4, h5]]
            have hc : Char.ofNat 10 = c := by rw [← h5, Char.ofNat_toNat]
            simp +decide [parseStringBody]
            rw [hc]
          · by_cases h6 : c.toNat = 13
            · rw [show escChar c = [bsl, 'r'] by simp [escChar, h1, h2, h3, h4, h5, h6]]
              have hc : Char.ofNat 13 = c := by rw [← h6, Char.ofNat_toNat]
              simp +decide [parseStringBody]
              rw [hc]
            · by_cases h7 : c.toNat = 9
              · rw [show escChar c = [bsl, 't'] by simp [escChar, h1, h2, h3, h4, h5, h6, h7]]
                have hc : Char.ofNat 9 = c := by rw [← h7, Char.ofNat_toNat]
                simp +decide [parseStringBody]
                rw [hc]
              · by_cases h8 : c.toNat < 32 ∨ 126 < c.toNat
                · rw [show escChar c = uEscape c.toNat by
                    simp [escChar, h1, h2, h3, h4, h5, h6, h7, h8]]
                  by_cases h9 : c.toNat < 65536
                  · rw [uEscape_lt _ h9]
                    rw [psb_u_single fuel c.toNat h9 (by omega) t]
                    rw [Char.ofNat_toNat]
                  · rw [uEscape_ge _ h9, List.append_assoc]
                    rw [psb_u_pair fuel _ _ (by omega) (by omega) t]
                    have : 65536 + (55296 + (c.toNat - 65536) / 1024 - 55296) * 1024 +
                        (56320 + (c.toNat - 65536) % 1024 - 56320) = c.toNat := by omega
                    rw [this, Char.ofNat_toNat]
                · rw [show escChar c = [c] by simp [escChar, h1, h2, h3, h4, h5, h6, h7, h8]]
                  rw [show ([c] ++ t) = c :: t by simp]
                  exact psb_plain fuel c t h1 h2 (by omega)

theorem escChar_length_pos (c : Char) : 1 ≤ (escChar c).length := by
  unfold escChar uEscape uEscape4
  split_ifs <;> simp

theorem length_le_escString (s : List Char) : s.length ≤ (escString s).length := by
  induction s with
  | nil => simp [escString]
  | cons c cs ih =>
    have := escChar_length_pos c
    simp only [escString, List.length_append, List.length_cons]
    omega

theorem psb_escString (s : List Char) : ∀ fuel, s.length < fuel → ∀ t : List Char,
    parseStringBody fuel (escString s ++ (dq :: t)) = some (s, t) := by
  induction s with
  | nil =>
    intro fuel hf t
    obtain ⟨f, rfl⟩ : ∃ f, fuel = f + 1 := ⟨fuel - 1, by omega⟩
    simpa [escString] using psb_dq f t
  | cons c cs ih =>
    intro fuel hf t
    obtain ⟨f, rfl⟩ : ∃ f, fuel = f + 1 := ⟨fuel - 1, by omega⟩
    have he : escString (c :: cs) ++ (dq :: t) = escChar c ++ (escString cs ++ (dq :: t)) := by
      simp [escString]
    rw [he, psb_escChar f c _, ih f (by simp at hf; omega) t]
    rfl

theorem toNat_digit (k : Nat) (hk : k < 10) : (Char.ofNat (48 + k)).toNat = 48 + k := by
  interval_cases k <;> decide

theorem isDig_digit (k : Nat) (hk : k < 10) : isDig (Char.ofNat (48 + k)) = true := by
  interval_cases k <;> decide

theorem digsToNat_append_one (ds : List Char) (d : Char) :
    digsToNat (ds ++ [d]) = digsToNat ds * 10 + (d.toNat - 48) := by
  simp [digsToNat, List.foldl_append]

theorem natDigs_spec (n : Nat) :
    (∀ c ∈ natDigs n, isDig c = true) ∧ digsToNat (natDigs n) = n ∧ natDigs n ≠ [] := by
  by_cases h : n < 10
  · rw [show natDigs n = [Char.ofNat (48 + n)] from by rw [natDigs]; simp [h]]
    refine ⟨?_, ?_, by simp⟩
    · intro c hc
      simp at hc
      subst hc
      exact isDig_digit n h
    · simp [digsToNat, toNat_digit n h]
  · have ih := natDigs_spec (n / 10)
    rw [show natDigs n = natDigs (n / 10) ++ [Char.ofNat (48 + n % 10)] from by
      rw [natDigs]; simp [h]]
    refine ⟨?_, ?_, by simp [ih.2.2]⟩
    · intro c hc
      rcases List.mem_append.1 hc with h1 | h1
      · exact ih.1 c h1
      · simp at h1
        subst h1
        exact isDig_digit (n % 10) (Nat.mod_lt _ (by omega))
    · rw [digsToNat_append_one, ih.2.1, toNat_digit (n % 10) (Nat.mod_lt _ (by omega))]
      omega
termination_by n
decreasing_by exact Nat.div_lt_self (by omega) (by omega)

theorem spanDigits_append (ds rest : List Char) (hds : ∀ c ∈ ds, isDig c = true)
    (hrest : headOk rest) : spanDigits (ds ++ rest) = (ds, rest) := by
  induction ds with
  | nil =>
    rcases hrest with h | ⟨t, h | h | h⟩ <;> subst h <;> simp +decide [spanDigits]
  | cons c cs ih =>
    have hc := hds c (by simp)
    simp only [List.cons_append, spanDigits, hc, if_true, List.append_eq]
    rw [ih (fun d hd => hds d (by simp [hd]))]


theorem serValue_head (v : Json) :
    ∃ c t, serValue v = c :: t ∧ valueStart c := by
  cases v with
  | null => exact ⟨'n', ['u', 'l', 'l'], by simp [serValue], Or.inl rfl⟩
  | bool b =>
    cases b
    · exact ⟨'f', ['a', 'l', 's', 'e'], by simp [serValue], by simp [valueStart]⟩
    · exact ⟨'t', ['r', 'u', 'e'], by simp [serValue], by simp [valueStart]⟩
  | int n =>
    by_cases hn : n < 0
    · exact ⟨'-', natDigs n.natAbs, by simp [serValue, serInt, hn], by simp [valueStart]⟩
    · obtain ⟨c, t, hct⟩ := List.exists_cons_of_ne_nil (natDigs_spec n.toNat).2.2
      refine ⟨c, t, by simp [serValue, serInt, hn, hct], ?_⟩
      have : isDig c = true := (natDigs_spec n.toNat).1 c (by simp [hct])
      simp [valueStart, this]
  | str s => exact ⟨dq, escString s ++ [dq], by simp [serValue], by simp [valueStart]⟩
  | arr items => exact ⟨'[', serArrBody items ++ [']'], by simp [serValue], by simp [valueStart]⟩
  | obj fields => exact ⟨'{', serObjBody fields ++ ['}'], by simp [serValue], by simp [valueStart]⟩

theorem valueStart_props (c : Char) (h : valueStart c) :
    jsonWs c = false ∧ Framing.pyWs c = false ∧ ¬c = ']' ∧ ¬c = '}' ∧ ¬c = ',' ∧ ¬c = ':' := by
  rcases h with h | h | h | h | h | h | h | h
  · subst h; refine ⟨by decide, by decide, by decide, by decide, by decide, by decide⟩
  · subst h; refine ⟨by decide, by decide, by decide, by decide, by decide, by decide⟩
  · subst h; refine ⟨by decide, by decide, by decide, by decide, by decide, by decide⟩
  · subst h; refine ⟨by decide, by decide, by decide, by decide, by decide, by decide⟩
  · subst h; refine ⟨by decide, by decide, by decide, by decide, by decide, by decide⟩
  · subst h; refine ⟨by decide, by decide, by decide, by decide, by decide, by decide⟩
  · subst h; refine ⟨by decide, by decide, by decide, by decide, by decide, by decide⟩
  · have hb : 48 ≤ c.toNat ∧ c.toNat ≤ 57 := by
      simpa [isDig, Bool.and_eq_true, decide_eq_true_eq] using h
    refine ⟨by simp [jsonWs]; omega, by simp [Framing.pyWs]; omega, ?_, ?_, ?_, ?_⟩
    · intro he; rw [he] at h; exact absurd h (by decide)
    · intro he; rw [he] at h; exact absurd h (by decide)
    · intro he; rw [he] at h; exact absurd h (by decide)
    · intro he; rw [he] at h; exact absurd h (by decide)

theorem dig_not_special (c : Char) (h : isDig c = true) :
    ¬c = 'n' ∧ ¬c = 't' ∧ ¬c = 'f' ∧ ¬c = dq ∧ ¬c = '[' ∧ ¬c = '{' ∧ ¬c = '-' := by
  refine ⟨?_, ?_, ?_, ?_, ?_, ?_, ?_⟩ <;>
    (intro he; rw [he] at h; exact absurd h (by decide))

theorem skipWs_cons_of_not_ws (c : Char) (l : List Char) (h : jsonWs c = false) :
    skipWs (c :: l) = c :: l := by
  simp [skipWs, List.dropWhile_cons, h]

theorem skipWs_cons_of_ws (c : Char) (l : List Char) (h : jsonWs c = true) :
    skipWs (c :: l) = skipWs l := by
  simp [skipWs, List.dropWhile_cons, h]

theorem parseValue_ws (f : Nat) (c : Char) (l : List Char) (h : jsonWs c = true) :
    parseValue (f + 1) (c :: l) = parseValue (f + 1) l := by
  simp only [parseValue]
  rw [skipWs_cons_of_ws c l h]

theorem parseArrayElems_fallback (f : Nat) (input : List Char) (c0 : Char) (t0 : List Char)
    (hsk : skipWs input = c0 :: t0) (hne : ¬c0 = ']') :
    parseArrayElems (f + 1) input =
      (parseValue f input).bind (fun p =>
        (parseArrayTail f p.2).map (fun q => (p.1 :: q.1, q.2))) := by
  simp only [parseArrayElems, hsk]
  rw [if_neg hne]

theorem serValue_length_pos (v : Json) : 1 ≤ (serValue v).length := by
  obtain ⟨c, t, h, _⟩ := serValue_head v
  simp [h]

mutual

theorem jsize_le (v : Json) : jsize v ≤ 2 * (serValue v).length := by
  cases v with
  | null => simp [jsize, serValue]
  | bool b => cases b <;> simp [jsize, serValue]
  | int n =>
    have := serValue_length_pos (.int n)
    simp only [jsize]
    omega
  | str s =>
    have := serValue_length_pos (.str s)
    simp only [jsize]
    omega
  | arr items =>
    have h := jsizeItems_le items
    simp only [jsize, serValue, List.length_cons, List.length_append]
    omega
  | obj fields =>
    have h := jsizeFields_le fields
    simp only [jsize, serValue, List.length_cons, List.length_append]
    omega

theorem jsizeItems_le (items : List Json) :
    jsizeItems items ≤ 2 * (serArrBody items).length + 3 := by
  cases items with
  | nil => simp [jsizeItems, serArrBody]
  | cons x xs =>
    have h1 := jsize_le x
    have h2 := jsizeTail_le xs
    simp only [jsizeItems, serArrBody, List.length_append]
    omega

theorem jsizeTail_le (items : List Json) :
    jsizeTail items ≤ 2 * (serArrTail items).length + 1 := by
  cases items with
  | nil => simp [jsizeTail, serArrTail]
  | cons x xs =>
    have h1 := jsize_le x
    have h2 := jsizeTail_le xs
    simp only [jsizeTail, serArrTail, List.length_append, List.length_cons]
    omega

theorem jsizeFields_le (fields : List (List Char × Json)) :
    jsizeFields fields ≤ 2 * (serObjBody fields).length + 3 := by
  cases fields with
  | nil => simp [jsizeFields, serObjBody]
  | cons kv xs =>
    obtain ⟨k, v⟩ := kv
    have h1 := jsize_le v
    have h2 := jsizeFTail_le xs
    simp only [jsizeFields, serObjBody, List.length_append, List.length_cons]
    omega

theorem jsizeFTail_le (fields : List (List Char × Json)) :
    jsizeFTail fields ≤ 2 * (serObjTail fields).length + 1 := by
  cases fields with
  | nil => simp [jsizeFTail, serObjTail]
  | cons kv xs =>
    obtain ⟨k, v⟩ := kv
    have h1 := jsize_le v
    have h2 := jsizeFTail_le xs
    simp only [jsizeFTail, serObjTail, List.length_append, List.length_cons]
    omega

end

theorem headOk_arrTail (xs : List Json) (rest : List Char) :
    headOk (serArrTail xs ++ (']' :: rest)) := by
  cases xs with
  | nil => exact Or.inr ⟨rest, Or.inr (Or.inl (by simp [serArrTail]))⟩
  | cons y ys =>
    refine Or.inr ⟨' ' :: (serValue y ++ (serArrTail ys ++ (']' :: rest))), Or.inl ?_⟩
    simp [serArrTail]

theorem headOk_objTail (xs : List (List Char × Json)) (rest : List Char) :
    headOk (serObjTail xs ++ ('}' :: rest)) := by
  cases xs with
  | nil => exact Or.inr ⟨rest, Or.inr (Or.inr (by simp [serObjTail]))⟩
  | cons kv ys =>
    obtain ⟨k, v⟩ := kv
    refine Or.inr ⟨' ' :: (dq :: (escString k ++ (dq :: (':' :: (' ' :: (serValue v ++
      (serObjTail ys ++ ('}' :: rest)))))))), Or.inl ?_⟩
    simp [serObjTail]

mutual

theorem rt_value (v : Json) (fuel : Nat) (rest : List Char)
    (hf : jsize v < fuel) (hr : headOk rest) :
    parseValue fuel (serValue v ++ rest) = some (v, rest) := by
  obtain ⟨f, rfl⟩ : ∃ f, fuel = f + 1 := ⟨fuel - 1, by omega⟩
  cases v with
  | null =>
    rw [show serValue .null ++ rest = 'n' :: 'u' :: 'l' :: 'l' :: rest from by simp [serValue]]
    simp only [parseValue]
    rw [skipWs_cons_of_not_ws _ _ (by decide)]
    simp +decide
  | bool b =>
    cases b
    · rw [show serValue (.bool false) ++ rest = 'f' :: 'a' :: 'l' :: 's' :: 'e' :: rest from by
        simp [serValue]]
      simp only [parseValue]
      rw [skipWs_cons_of_not_ws _ _ (by decide)]
      simp +decide
    · rw [show serValue (.bool true) ++ rest = 't' :: 'r' :: 'u' :: 'e' :: rest from by
        simp [serValue]]
      simp only [parseValue]
      rw [skipWs_cons_of_not_ws _ _ (by decide)]
      simp +decide
  | int n =>
    by_cases hn : n < 0
    · rw [show serValue (.int n) ++ rest = '-' :: (natDigs n.natAbs ++ rest) from by
        simp [serValue, serInt, hn]]
      simp only [parseValue]
      rw [skipWs_cons_of_not_ws _ _ (by decide)]
      simp only []
      rw [spanDigits_append _ _ (natDigs_spec n.natAbs).1 hr]
      obtain ⟨c0, t0, hd⟩ := List.exists_cons_of_ne_nil (natDigs_spec n.natAbs).2.2
      rw [hd]
      simp only []
      rw [← hd, (natDigs_spec n.natAbs).2.1]
      have hcast : (-(n.natAbs : Int)) = n := by omega
      rw [hcast]
      simp +decide
    · rw [show serValue (.int n) ++ rest = natDigs n.toNat ++ rest from by
        simp [serValue, serInt, hn]]
      obtain ⟨c0, t0, hd⟩ := List.exists_cons_of_ne_nil (natDigs_spec n.toNat).2.2
      have hdig : isDig c0 = true := (natDigs_spec n.toNat).1 c0 (by simp [hd])
      have hsp := dig_not_special c0 hdig
      have hws : jsonWs c0 = false := (valueStart_props c0 (by
        simp [valueStart, hdig])).1
      rw [hd, List.cons_append]
      simp only [parseValue]
      rw [skipWs_cons_of_not_ws _ _ hws]
      simp only []
      rw [if_neg hsp.1, if_neg hsp.2.1, if_neg hsp.2.2.1, if_neg hsp.2.2.2.1,
        if_neg hsp.2.2.2.2.1, if_neg hsp.2.2.2.2.2.1, if_neg hsp.2.2.2.2.2.2, if_pos hdig]
      rw [show c0 :: (t0 ++ rest) = (c0 :: t0) ++ rest from by simp, ← hd]
      rw [spanDigits_append _ _ (natDigs_spec n.toNat).1 hr]
      rw [hd]
      simp only []
      rw [← hd, (natDigs_spec n.toNat).2.1]
      have hcast : ((n.toNat : Int)) = n := by omega
      rw [hcast]
  | str s =>
    rw [show serValue (.str s) ++ rest = dq :: (escString s ++ (dq :: rest)) from by
      simp [serValue]]
    simp only [parseValue]
    rw [skipWs_cons_of_not_ws _ _ (by decide)]
    simp only []
    simp only [if_true]
    rw [psb_escString s ((escString s ++ (dq :: rest)).length + 1)
      (by have := length_le_escString s; simp only [List.length_append, List.length_cons]; omega)
      rest]
    rfl
  | arr items =>
    have hi : jsizeItems items < f := by simp only [jsize] at hf; omega
    rw [show serValue (.arr items) ++ rest = '[' :: (serArrBody items ++ (']' :: rest)) from by
      simp [serValue]]
    simp only [parseValue]
    rw [skipWs_cons_of_not_ws _ _ (by decide)]
    simp only []
    simp only [if_true]
    rw [rt_arrElems items f rest hi]
    rfl
  | obj fields =>
    have hi : jsizeFields fields < f := by simp only [jsize] at hf; omega
    rw [show serValue (.obj fields) ++ rest = '{' :: (serObjBody fields ++ ('}' :: rest)) from by
      simp [serValue]]
    simp only [parseValue]
    rw [skipWs_cons_of_not_ws _ _ (by decide)]
    simp only []
    simp only [if_true]
    rw [rt_objMembers fields f rest hi]
    rfl

theorem rt_arrElems (items : List Json) (fuel : Nat) (rest : List Char)
    (hf : jsizeItems items < fuel) :
    parseArrayElems fuel (serArrBody items ++ (']' :: rest)) = some (items, rest) := by
  obtain ⟨f, rfl⟩ : ∃ f, fuel = f + 1 := ⟨fuel - 1, by omega⟩
  cases items with
  | nil =>
    rw [show serArrBody [] ++ (']' :: rest) = ']' :: rest from by simp [serArrBody]]
    simp only [parseArrayElems]
    rw [skipWs_cons_of_not_ws _ _ (by decide)]
    simp only []
    simp only [if_true]
  | cons x xs =>
    have hx : jsize x < f := by simp only [jsizeItems] at hf; omega
    have hxs : jsizeTail xs < f := by simp only [jsizeItems] at hf; omega
    obtain ⟨c0, t0, hs, hvs⟩ := serValue_head x
    have hp := valueStart_props c0 hvs
    rw [show serArrBody (x :: xs) ++ (']' :: rest) =
      serValue x ++ (serArrTail xs ++ (']' :: rest)) from by simp [serArrBody]]
    rw [parseArrayElems_fallback f _ c0 (t0 ++ (serArrTail xs ++ (']' :: rest)))
      (by rw [hs, List.cons_append]; exact skipWs_cons_of_not_ws _ _ hp.1) hp.2.2.1]
    rw [rt_value x f _ hx (headOk_arrTail xs rest)]
    simp only [Option.some_bind]
    rw [rt_arrTail xs f rest hxs]
    rfl

theorem rt_arrTail (items : List Json) (fuel : Nat) (rest : List Char)
    (hf : jsizeTail items < fuel) :
    parseArrayTail fuel (serArrTail items ++ (']' :: rest)) = some (items, rest) := by
  obtain ⟨f, rfl⟩ : ∃ f, fuel = f + 1 := ⟨fuel - 1, by omega⟩
  cases items with
  | nil =>
    rw [show serArrTail [] ++ (']' :: rest) = ']' :: rest from by simp [serArrTail]]
    simp only [parseArrayTail]
    rw [skipWs_cons_of_not_ws _ _ (by decide)]
    simp only []
    simp only [if_true]
  | cons y ys =>
    have hy : jsize y < f := by simp only [jsizeTail] at hf; omega
    have hys : jsizeTail ys < f := by simp only [jsizeTail] at hf; omega
    rw [show serArrTail (y :: ys) ++ (']' :: rest) =
      ',' :: ' ' :: (serValue y ++ (serArrTail ys ++ (']' :: rest))) from by simp [serArrTail]]
    simp only [parseArrayTail]
    rw [skipWs_cons_of_not_ws _ _ (by decide)]
    simp only []
    simp only [if_true]
    obtain ⟨g, rfl⟩ : ∃ g, f = g + 1 := ⟨f - 1, by omega⟩
    rw [parseValue_ws g ' ' _ (by decide)]
    rw [rt_value y (g + 1) _ hy (headOk_arrTail ys rest)]
    simp only [Option.some_bind]
    rw [rt_arrTail ys (g + 1) rest hys]
    rfl

theorem rt_objMembers (fields : List (List Char × Json)) (fuel : Nat) (rest : List Char)
    (hf : jsizeFields fields < fuel) :
    parseObjMembers fuel (serObjBody fields ++ ('}' :: rest)) = some (fields, rest) := by
  obtain ⟨f, rfl⟩ : ∃ f, fuel = f + 1 := ⟨fuel - 1, by omega⟩
  cases fields with
  | nil =>
    rw [show serObjBody [] ++ ('}' :: rest) = '}' :: rest from by simp [serObjBody]]
    simp only [parseObjMembers]
    rw [skipWs_cons_of_not_ws _ _ (by decide)]
    simp only []
    simp only [if_true]
  | cons kv xs =>
    obtain ⟨k, v⟩ := kv
    have hv : jsize v < f := by simp only [jsizeFields] at hf; omega
    have hxs : jsizeFTail xs < f := by simp only [jsizeFields] at hf; omega
    rw [show serObjBody ((k, v) :: xs) ++ ('}' :: rest) =
      dq :: (escString k ++ (dq :: (':' :: (' ' :: (serValue v ++
        (serObjTail xs ++ ('}' :: rest))))))) from by simp [serObjBody]]
    simp only [parseObjMembers]
    rw [skipWs_cons_of_not_ws _ _ (by decide)]
    simp only []
    simp only [if_true]
    rw [psb_escString k _ (by
      have := length_le_escString k
      simp only [List.length_append, List.length_cons]
      omega) _]
    simp only [Option.some_bind]
    rw [skipWs_cons_of_not_ws _ _ (by decide)]
    simp only []
    simp only [if_true]
    obtain ⟨g, rfl⟩ : ∃ g, f = g + 1 := ⟨f - 1, by omega⟩
    rw [parseValue_ws g ' ' _ (by decide)]
    rw [rt_value v (g + 1) _ hv (headOk_objTail xs rest)]
    simp only [Option.some_bind]
    rw [rt_objTail xs (g + 1) rest hxs]
    rfl

theorem rt_objTail (fields : List (List Char × Json)) (fuel : Nat) (rest : List Char)
    (hf : jsizeFTail fields < fuel) :
    parseObjTail fuel (serObjTail fields ++ ('}' :: rest)) = some (fields, rest) := by
  obtain ⟨f, rfl⟩ : ∃ f, fuel = f + 1 := ⟨fuel - 1, by omega⟩
  cases fields with
  | nil =>
    rw [show serObjTail [] ++ ('}' :: rest) = '}' :: rest from by simp [serObjTail]]
    simp only [parseObjTail]
    rw [skipWs_cons_of_not_ws _ _ (by decide)]
    simp only []
    simp only [if_true]
  | cons kv xs =>
    obtain ⟨k, v⟩ := kv
    have hv : jsize v < f := by simp only [jsizeFTail] at hf; omega
    have hxs : jsizeFTail xs < f := by simp only [jsizeFTail] at hf; omega
    rw [show serObjTail ((k, v) :: xs) ++ ('}' :: rest) =
      ',' :: ' ' :: (dq :: (escString k ++ (dq :: (':' :: (' ' :: (serValue v ++
        (serObjTail xs ++ ('}' :: rest)))))))) from by simp [serObjTail]]
    simp only [parseObjTail]
    rw [skipWs_cons_of_not_ws _ _ (by decide)]
    simp only []
    simp only [if_true]
    rw [skipWs_cons_of_ws _ _ (by decide), skipWs_cons_of_not_ws _ _ (by decide)]
    simp only []
    simp only [if_true]
    rw [psb_escString k _ (by
      have := length_le_escString k
      simp only [List.length_append, List.length_cons]
      omega) _]
    simp only [Option.some_bind]
    rw [skipWs_cons_of_not_ws _ _ (by decide)]
    simp only []
    simp only [if_true]
    obtain ⟨g, rfl⟩ : ∃ g, f = g + 1 := ⟨f - 1, by omega⟩
    rw [parseValue_ws g ' ' _ (by decide)]
    rw [rt_value v (g + 1) _ hv (headOk_objTail xs rest)]
    simp only [Option.some_bind]
    rw [rt_objTail xs (g + 1) rest hxs]
    rfl

end

theorem serValue_reverse_head (v : Json) :
    ∃ c t, (serValue v).reverse = c :: t ∧ Framing.pyWs c = false := by
  cases v with
  | null => exact ⟨'l', ['l', 'u', 'n'], by simp [serValue], by decide⟩
  | bool b =>
    cases b
    · exact ⟨'e', ['s', 'l', 'a', 'f'], by simp [serValue], by decide⟩
    · exact ⟨'e', ['u', 'r', 't'], by simp [serValue], by decide⟩
  | int n =>
    have hds := natDigs_spec (if n < 0 then n.natAbs else n.toNat)
    by_cases hn : n < 0
    · rw [if_pos hn] at hds
      obtain ⟨c, t, hrev⟩ := List.exists_cons_of_ne_nil
        (show (natDigs n.natAbs).reverse ≠ [] from by simp [hds.2.2])
      have hc : c ∈ natDigs n.natAbs := by
        rw [← List.mem_reverse, hrev]
        simp
      have hdig : 48 ≤ c.toNat ∧ c.toNat ≤ 57 := by
        simpa [isDig, Bool.and_eq_true, decide_eq_true_eq] using hds.1 c hc
      refine ⟨c, t ++ ['-'], ?_, ?_⟩
      · rw [show serValue (.int n) = '-' :: natDigs n.natAbs from by simp [serValue, serInt, hn]]
        simp [hrev]
      · simp [Framing.pyWs]
        omega
    · rw [if_neg hn] at hds
      obtain ⟨c, t, hrev⟩ := List.exists_cons_of_ne_nil
        (show (natDigs n.toNat).reverse ≠ [] from by simp [hds.2.2])
      have hc : c ∈ natDigs n.toNat := by
        rw [← List.mem_reverse, hrev]
        simp
      have hdig : 48 ≤ c.toNat ∧ c.toNat ≤ 57 := by
        simpa [isDig, Bool.and_eq_true, decide_eq_true_eq] using hds.1 c hc
      refine ⟨c, t, ?_, ?_⟩
      · rw [show serValue (.int n) = natDigs n.toNat from by simp [serValue, serInt, hn]]
        exact hrev
      · simp [Framing.pyWs]
        omega
  | str s =>
    refine ⟨dq, (escString s).reverse ++ [dq], ?_, by decide⟩
    rw [show serValue (.str s) = dq :: (escString s ++ [dq]) from by simp [serValue]]
    simp
  | arr items =>
    refine ⟨']', (serArrBody items).reverse ++ ['['], ?_, by decide⟩
    rw [show serValue (.arr items) = '[' :: (serArrBody items ++ [']']) from by simp [serValue]]
    simp
  | obj fields =>
    refine ⟨'}', (serObjBody fields).reverse ++ ['{'], ?_, by decide⟩
    rw [show serValue (.obj fields) = '{' :: (serObjBody fields ++ ['}']) from by simp [serValue]]
    simp

theorem pystrip_record (v : Json) :
    Framing.pystrip (serValue v ++ [Framing.nl]) = serValue v := by
  obtain ⟨c, t, hh, hvs⟩ := serValue_head v
  have hcws : Framing.pyWs c = false := (valueStart_props c hvs).2.1
  obtain ⟨c2, t2, hrev, hc2⟩ := serValue_reverse_head v
  have h1 : (serValue v ++ [Framing.nl]).dropWhile (fun x => Framing.pyWs x) =
      serValue v ++ [Framing.nl] := by
    rw [hh, List.cons_append, List.dropWhile_cons]
    simp [hcws]
  have h2 : (serValue v ++ [Framing.nl]).reverse = Framing.nl :: (serValue v).reverse := by
    simp
  unfold Framing.pystrip
  rw [h1, h2, List.dropWhile_cons]
  simp only [show Framing.pyWs Framing.nl = true from by decide, if_true]
  rw [hrev, List.dropWhile_cons]
  simp only [hc2, Bool.false_eq_true, if_false]
  rw [← hrev, List.reverse_reverse]

theorem jsonLoads_serValue (v : Json) : jsonLoads (serValue v) = some v := by
  unfold jsonLoads
  have hrt := rt_value v (2 * (serValue v).length + 2) []
    (by have := jsize_le v; omega) (Or.inl rfl)
  rw [show serValue v ++ ([] : List Char) = serValue v from by simp] at hrt
  rw [hrt]
  simp [skipWs]

/-- Claim C5: round-trip of the envelope codec. For every constructible
envelope value `v` (JSON built from null, booleans, integers, strings,
arrays and objects, as `json.dumps` and `json.loads` with the default
`ensure_ascii` settings handle them), decoding the encoded record -- parsing
the result of stripping the trailing newline delimiter appended by
`send_message` and `_send_to_client` from the serialized line, as the receive
loops do with `line.strip()` followed by `json.loads` -- yields exactly `v`. -/
theorem claim5_codec_round_trip (v : Json) : decodeRecord (encodeRecord v) = some v := by
  unfold decodeRecord encodeRecord
  rw [pystrip_record v, jsonLoads_serValue v]

end PyJson
